import Mathlib

/-!
Verification development for the healthcare-benefits search system.

Shallow embedding of the core modules:
* `src/data_processing/chunker.py` — `BenefitChunker` (keyword classifier,
  overview/benefit chunk creation);
* `src/models/retriever.py` — `BenefitRetriever.search` and friends;
* `src/models/embedding_generator.py` — `save_all` / `load_all`.

Python dict records are modelled as association lists (`Dict`), with lookup
returning the first binding; the merge `{base, **metadata}` is modelled by
placing `metadata` in front of the base bindings, so that `metadata` wins on
key collisions, exactly as the later keys of a Python dict literal do.
Floating-point distances are modelled as exact rationals: the retrieval logic
only subtracts them from 1 and compares them, so no rounding behaviour is
relevant to the claims.
-/

namespace HBS

/-- A Python value stored in a chunk record: the source only ever stores
strings and numbers in the dict fields the core reads. -/
inductive Val where
  | str : String → Val
  | num : ℚ → Val
deriving DecidableEq, Repr

/-- Rendering of a value inside an f-string (`str()` in Python). -/
def Val.render : Val → String
  | .str s => s
  | .num q => toString q

/-- Python `value == 0` for the values we model. -/
def Val.isZero : Val → Bool
  | .str _ => false
  | .num q => q == 0

/-- A Python dict record, as an association list; lookup takes the first
binding for a key. -/
abbrev Dict := List (String × Val)

/-- `d.get(k)` on a Python dict (returns `None` when the key is absent). -/
def dictGet (d : Dict) (k : String) : Option Val :=
  (d.find? (fun p => p.1 == k)).map (·.2)

/-- `d.get(k, default)` on a Python dict. -/
def dictGetD (d : Dict) (k : String) (v : Val) : Val :=
  (dictGet d k).getD v

/-- `needle.isPrefix(haystack)`: character-wise prefix test. -/
def strStarts : List Char → List Char → Bool
  | [], _ => true
  | _ :: _, [] => false
  | a :: as, b :: bs => a == b && strStarts as bs

/-- Python `pat in text` for strings: `pat` occurs contiguously in `text`. -/
def hasSub (pat : List Char) : List Char → Bool
  | [] => pat.isEmpty
  | c :: rest => strStarts pat (c :: rest) || hasSub pat rest

/-- Python `str.lower()` (the texts involved are ASCII). -/
def pyLower (s : String) : String :=
  ⟨s.data.map Char.toLower⟩

/-- `kw in text` at the `String` level. -/
def containsSub (text kw : String) : Bool :=
  hasSub kw.data text.data

namespace BenefitChunker

/-- The fixed ordered category → keyword mapping of `BenefitChunker.__init__`
(`src/data_processing/chunker.py`, lines 15–33). Order is the dict insertion
order of the source and is semantically relevant for tie-breaking. -/
def categories : List (String × List String) :=
  [ ("preventive", ["preventive", "screening", "wellness", "annual", "physical", "immunization"])
  , ("emergency", ["emergency", "urgent", "ambulance"])
  , ("hospital", ["hospital", "inpatient", "admission", "surgery", "outpatient"])
  , ("prescription", ["prescription", "drug", "pharmacy", "medication", "tier"])
  , ("dental", ["dental", "teeth", "cleaning", "orthodont", "crown", "filling"])
  , ("vision", ["vision", "eye", "glasses", "contacts", "exam", "eyewear"])
  , ("mental_health", ["mental", "therapy", "counseling", "behavioral", "psychiatrist", "psychologist"])
  , ("therapy", ["physical therapy", "occupational", "speech", "rehabilitation", "cardiac"])
  , ("specialist", ["specialist", "consultation", "referral"])
  , ("primary_care", ["primary care", "pcp", "doctor visit"])
  , ("wellness", ["gym", "fitness", "silversneakers", "wellness", "weight loss"])
  , ("telehealth", ["telehealth", "virtual", "telemedicine"])
  , ("transportation", ["transportation", "rides", "trip"])
  , ("hearing", ["hearing", "hearing aid", "audiologist"])
  , ("home_health", ["home health", "home care", "home support"])
  , ("meals", ["meal", "food", "nutrition"])
  , ("otc", ["over-the-counter", "otc"]) ]

/-- `sum(1 for kw in keywords if kw in text)` — one point per keyword phrase
occurring as a substring, independent of its frequency. -/
def catScore (text : String) (kws : List String) : ℕ :=
  (kws.filter (fun kw => containsSub text kw)).length

/-- The `scores` dict of `_classify`: categories with positive score, in
mapping order (Python dicts preserve insertion order). -/
def posScores (text : String) : List (String × ℕ) :=
  categories.filterMap (fun p =>
    let s := catScore text p.2
    if 0 < s then some (p.1, s) else none)

/-- Python `max(scores, key=scores.get)`: scan left-to-right and replace the
current best only on a strictly greater score, so the first-defined category
with the maximal score wins ties. -/
def pickFirstMax (h : String × ℕ) (t : List (String × ℕ)) : String × ℕ :=
  t.foldl (fun best p => if best.2 < p.2 then p else best) h

/-- `BenefitChunker._classify` (lines 112–125): expects already lower-cased
text, scores the categories, and returns the best one, else `"general"`. -/
def classifyLowered (text : String) : String :=
  match posScores text with
  | [] => "general"
  | h :: t => (pickFirstMax h t).1

/-- The classification operation on raw text: the call site
(`_create_benefit_chunk`, line 101) lower-cases the text before handing it to
`_classify`, so the spec-level `classify` is lower-casing followed by scoring. -/
def classify (text : String) : String :=
  classifyLowered (pyLower text)

/-- `BenefitChunker._create_benefit_chunk` (lines 88–110). The final dict
literal merges `**metadata` last, so metadata bindings override the computed
`text`/`service`/`description`/`type`/`category` fields; with lookup-first
association lists this is `metadata ++ base`. -/
def create_benefit_chunk (service description : String) (metadata : Dict) : Dict :=
  let baseText := "For " ++ service ++ ": " ++ description
  let text :=
    match dictGet metadata "plan_name" with
    | some v => "Under the " ++ v.render ++ ", " ++ pyLower baseText
    | none => baseText
  let category := classifyLowered (pyLower service ++ " " ++ pyLower description)
  metadata ++
    [ ("text", Val.str text)
    , ("service", Val.str service)
    , ("description", Val.str description)
    , ("type", Val.str "benefit")
    , ("category", Val.str category) ]

/-- One sentence block of `_create_overview` for an optional dollar field. -/
def moneyPart (label0 labelSome : String) (v : Val) : String :=
  if v.isZero then label0 else labelSome ++ v.render ++ "."

/-- `BenefitChunker._create_overview` (lines 53–86); again `**metadata` is
merged last and overrides the computed fields. -/
def create_overview (metadata : Dict) : Dict :=
  let plan := dictGetD metadata "plan_name" (Val.str "This plan")
  let provider := dictGetD metadata "provider" (Val.str "")
  let parts0 := [plan.render ++ " is offered by " ++ provider.render ++ "."]
  let parts1 :=
    match dictGet metadata "plan_type" with
    | some v => parts0 ++ ["This is a " ++ v.render ++ " plan."]
    | none => parts0
  let parts2 :=
    match dictGet metadata "monthly_premium" with
    | some v => parts1 ++
        [moneyPart "This plan has no monthly premium ($0)." "The monthly premium is $" v]
    | none => parts1
  let parts3 :=
    match dictGet metadata "deductible" with
    | some v => parts2 ++
        [moneyPart "This plan has no deductible ($0)." "The annual deductible is $" v]
    | none => parts2
  let text := String.intercalate " " parts3
  metadata ++
    [ ("text", Val.str text)
    , ("type", Val.str "overview")
    , ("category", Val.str "general") ]

end BenefitChunker

/-! ## Retriever (`src/models/retriever.py`) -/

namespace BenefitRetriever

/-- One entry of the list returned by `BenefitRetriever.search`: the copied
chunk dict together with the three keys the loop writes into it
(`similarity_score`, `rank`, `chunk_id`); the written keys always override any
homonymous key of the copied dict, so they are modelled as record fields. -/
structure SearchResult where
  chunk : Dict
  similarity_score : ℚ
  rank : ℕ
  chunk_id : ℤ
deriving DecidableEq, Repr

/-- The plan filter of `search` (lines 86–87): the candidate is *rejected*
when `plan_filter` is truthy (non-`None`, non-empty) and
`chunk.get('plan_name') != plan_filter`; this function is the acceptance
condition (the negation of the rejection test). -/
def planAccept (pf : Option String) (c : Dict) : Bool :=
  match pf with
  | none => true
  | some p => if p = "" then true else decide (dictGet c "plan_name" = some (Val.str p))

/-- The category filter of `search` (lines 89–90), same shape as `planAccept`. -/
def catAccept (cf : Option String) (c : Dict) : Bool :=
  match cf with
  | none => true
  | some p => if p = "" then true else decide (dictGet c "category" = some (Val.str p))

/-- The loaded retrieval state for one query: the chunk store, and the FAISS
answer `ann n` = `self.index.search(query_embedding, n)` flattened to its
`(distance, index)` pairs in index return order, where the index `-1` is the
FAISS sentinel for "no match". The well-formedness facts the FAISS library
guarantees (at most `n` pairs, distances sorted ascending, indices either `-1`
or positions into the store) appear as hypotheses of the theorems. -/
structure SearchState where
  chunks : List Dict
  ann : ℕ → List (ℚ × ℤ)

/-- The candidate loop of `search` (lines 77–101). `i` is the `enumerate`
counter over the raw candidates (it advances on skipped candidates too), and
`need` is how many more accepted results the loop may still collect: the
source appends and then breaks when `len(results) >= top_k`, which is the same
as stopping right after an acceptance made with `need ≤ 1`. `chunks[idx]` is
total in the model via a default empty dict (FAISS only produces in-range or
`-1` indices). -/
def searchLoop (chunks : List Dict) (pf cf : Option String) :
    List (ℚ × ℤ) → ℕ → ℕ → List SearchResult
  | [], _, _ => []
  | (d, idx) :: rest, i, need =>
    if idx = -1 then searchLoop chunks pf cf rest (i + 1) need
    else if planAccept pf (chunks.getD idx.toNat []) = false then
      searchLoop chunks pf cf rest (i + 1) need
    else if catAccept cf (chunks.getD idx.toNat []) = false then
      searchLoop chunks pf cf rest (i + 1) need
    else if need ≤ 1 then [⟨chunks.getD idx.toNat [], 1 - d, i + 1, idx⟩]
    else ⟨chunks.getD idx.toNat [], 1 - d, i + 1, idx⟩ ::
      searchLoop chunks pf cf rest (i + 1) (need - 1)

/-- `BenefitRetriever.search` (lines 49–103): ask the index for
`min(top_k * 3, len(chunks))` nearest neighbours of the embedded query, then
run the filtering loop. The query string itself only enters through its
embedding, which is part of `st.ann`. -/
def search (st : SearchState) (top_k : ℕ) (pf cf : Option String) : List SearchResult :=
  searchLoop st.chunks pf cf (st.ann (min (top_k * 3) st.chunks.length)) 0 top_k

/-- `BenefitRetriever.get_plan_overview` (lines 151–166): first chunk whose
`plan_name` and `type` match, else `None`. -/
def get_plan_overview (chunks : List Dict) (plan : String) : Option Dict :=
  chunks.find? (fun c =>
    decide (dictGet c "plan_name" = some (Val.str plan)) &&
    decide (dictGet c "type" = some (Val.str "overview")))

end BenefitRetriever

/-! ## Persistence (`src/models/embedding_generator.py`) -/

namespace EmbeddingGenerator

/-- The serialized FAISS index: modelled by the vector payload it was built
from, which is what `write_index`/`read_index` round-trip. -/
abbrev IndexData := List (List ℚ)

/-- The summary metadata dict written by `save_all` (lines 126–134).
`plans`/`categories` come from Python `set(...)`, so they are modelled as
finite sets with no order. -/
structure Meta where
  total_chunks : ℕ
  embedding_dimension : ℕ
  model_name : String
  index_type : String
  plans : Finset Val
  categories : Finset Val
  total_plans : ℕ
deriving DecidableEq

/-- The metadata `save_all` computes for a chunk list and model dimension. -/
def metaOf (chunks : List Dict) (dim : ℕ) : Meta :=
  { total_chunks := chunks.length
  , embedding_dimension := dim
  , model_name := "all-MiniLM-L6-v2"
  , index_type := "HNSW"
  , plans := (chunks.map (fun c => dictGetD c "plan_name" (Val.str "Unknown"))).toFinset
  , categories := (chunks.map (fun c => dictGetD c "category" (Val.str "unknown"))).toFinset
  , total_plans := (chunks.map (fun c => dictGetD c "plan_name" (Val.str "Unknown"))).toFinset.card }

/-- The persisted location (`output_dir`): the directory and the four files
`benefits.index`, `chunks.pkl`, `embeddings.npy`, `metadata.json`, each either
absent or holding a complete previously-written payload. -/
structure FS where
  dirExists : Bool
  indexFile : Option IndexData
  chunksFile : Option (List Dict)
  embFile : Option (List (List ℚ))
  metaFile : Option Meta
deriving DecidableEq

/-- `EmbeddingGenerator.save_all` stopped after its first `j` effects, in
source order (lines 104–139): `mkdir`, write index, write chunks, write
embeddings, write metadata. `saveFirst … 5` is the complete run; smaller `j`
models a failure part-way through. Every write goes directly to the final
file name — the source uses no temporary file or rename. -/
def saveFirst (fs : FS) (index : IndexData) (chunks : List Dict)
    (embeddings : List (List ℚ)) (dim : ℕ) (j : ℕ) : FS :=
  let s1 := if 1 ≤ j then { fs with dirExists := true } else fs
  let s2 := if 2 ≤ j then { s1 with indexFile := some index } else s1
  let s3 := if 3 ≤ j then { s2 with chunksFile := some chunks } else s2
  let s4 := if 4 ≤ j then { s3 with embFile := some embeddings } else s3
  if 5 ≤ j then { s4 with metaFile := some (metaOf chunks dim) } else s4

/-- `EmbeddingGenerator.save_all` (lines 93–148) run to completion. -/
def save_all (fs : FS) (index : IndexData) (chunks : List Dict)
    (embeddings : List (List ℚ)) (dim : ℕ) : FS :=
  saveFirst fs index chunks embeddings dim 5

/-- The failure surfaced when a file the loader needs is missing (the source
raises `FileNotFoundError` / a faiss read error; the spec names both
`IndexNotFound`). -/
inductive LoadErr where
  | IndexNotFound
deriving DecidableEq, Repr

/-- `EmbeddingGenerator.load_all` (lines 150–177): read `benefits.index`,
`chunks.pkl` and `embeddings.npy`, in that order, failing on the first missing
file; `metadata.json` is never read. -/
def load_all (fs : FS) : Except LoadErr (IndexData × List Dict × List (List ℚ)) :=
  match fs.indexFile with
  | none => .error .IndexNotFound
  | some index =>
    match fs.chunksFile with
    | none => .error .IndexNotFound
    | some chunks =>
      match fs.embFile with
      | none => .error .IndexNotFound
      | some embeddings => .ok (index, chunks, embeddings)

/-- Whether `load_all` succeeds on a location. -/
def loadOk (fs : FS) : Bool :=
  match load_all fs with
  | .ok _ => true
  | .error _ => false

/-- Modelled from the spec: §3 and §6 define the persisted unit as the
4-tuple {index, passages, raw vectors, summary metadata}, so a location
"contains a complete unit" when the directory and all four files are present.
This definition follows the spec's words (for comparison with `load_all`,
which the source code defines); it is not a source translation. -/
def specCompleteUnit (fs : FS) : Bool :=
  fs.dirExists && fs.indexFile.isSome && fs.chunksFile.isSome &&
    fs.embFile.isSome && fs.metaFile.isSome

/-- `BenefitRetriever.__init__` (`src/models/retriever.py`, lines 16–47):
fail when the index directory does not exist, then read the index file and the
chunks file (embeddings and metadata are not read); the loaded chunk store is
the retriever's queryable state. -/
def retrieverInit (fs : FS) : Except LoadErr (List Dict) :=
  if fs.dirExists = false then .error .IndexNotFound
  else
    match fs.indexFile with
    | none => .error .IndexNotFound
    | some _ =>
      match fs.chunksFile with
      | none => .error .IndexNotFound
      | some chunks => .ok chunks

end EmbeddingGenerator

/-! ## Concrete data used by witnesses and counterexamples -/

open BenefitChunker BenefitRetriever EmbeddingGenerator

/-- A chunk of plan "A". -/
def dA : Dict := [("plan_name", Val.str "A"), ("category", Val.str "general")]

/-- A chunk of plan "B". -/
def dB : Dict := [("plan_name", Val.str "B"), ("category", Val.str "dental")]

/-- An overview chunk of plan "A". -/
def dOv : Dict := [("plan_name", Val.str "A"), ("type", Val.str "overview")]

/-- A two-chunk retrieval state whose index returns chunk 0 at distance 0 and
chunk 1 at distance 1/10, truncated to the requested candidate count. -/
def st1 : SearchState :=
  ⟨[dA, dB], fun n => ([((0 : ℚ), (0 : ℤ)), ((1 / 10 : ℚ), (1 : ℤ))]).take n⟩

/-- A state with the same chunks as `st1` and the same index answer at
candidate count 2, but a different answer elsewhere. -/
def st1b : SearchState :=
  ⟨[dA, dB], fun n =>
    if n = 2 then ([((0 : ℚ), (0 : ℤ)), ((1 / 10 : ℚ), (1 : ℤ))]).take 2 else []⟩

/-- The first result `search st1 1 none none` produces. -/
def rA : SearchResult := ⟨dA, 1, 1, 0⟩

/-- The result `search st1 2 (some "B") none` produces. -/
def rB : SearchResult := ⟨dB, 9 / 10, 2, 1⟩

/-- A location holding a complete previously persisted unit. -/
def fsOld : FS := ⟨true, some [[1]], some [dA], some [[1]], some (metaOf [dA] 1)⟩

/-- A location with the index, chunks and embeddings files but no metadata
file. -/
def fsNM : FS := ⟨true, some [[1]], some [dA], some [[1]], none⟩

/-- A location whose directory does not exist. -/
def fsNoDir : FS := ⟨false, none, none, none, none⟩

/-- A metadata mapping that itself carries a `category` key. -/
def mdX : Dict := [("category", Val.str "X"), ("plan_name", Val.str "P")]

/-! ## Helper lemmas -/

/-- Lookup in a concatenation prefers the left record — the formal core of the
`(dollar)**metadata`-merged-last behaviour. -/
lemma dictGet_append (d₁ d₂ : Dict) (k : String) :
    dictGet (d₁ ++ d₂) k = ((dictGet d₁ k).or (dictGet d₂ k)) := by
  simp only [dictGet, List.find?_append]
  cases List.find? (fun p => p.1 == k) d₁ <;> simp

/-- Every entry of the positive-score list has a positive score. -/
lemma posScores_pos {t : String} {q : String × ℕ} (hq : q ∈ posScores t) :
    0 < q.2 := by
  simp only [posScores, List.mem_filterMap] at hq
  obtain ⟨a, -, ha⟩ := hq
  by_cases h : 0 < catScore t a.2
  · simp only [if_pos h] at ha
    cases ha
    exact h
  · simp [if_neg h] at ha

/-- The left-to-right strict-improvement scan returns the first entry
attaining the maximal value: the list splits around the returned entry, all
entries strictly before it score strictly less, and nothing scores more. -/
lemma pickFirstMax_spec (h : String × ℕ) (t : List (String × ℕ)) :
    ∃ l₁ l₂, h :: t = l₁ ++ pickFirstMax h t :: l₂ ∧
      (∀ q ∈ l₁, q.2 < (pickFirstMax h t).2) ∧
      (∀ q ∈ h :: t, q.2 ≤ (pickFirstMax h t).2) := by
  induction t generalizing h with
  | nil =>
    refine ⟨[], [], by simp [pickFirstMax], by simp, ?_⟩
    intro q hq
    have : q = h := by simpa using hq
    simp [this, pickFirstMax]
  | cons a t' ih =>
    have hstep : pickFirstMax h (a :: t') = pickFirstMax (if h.2 < a.2 then a else h) t' := rfl
    by_cases hha : h.2 < a.2
    · rw [if_pos hha] at hstep
      obtain ⟨l₁, l₂, hsp, hlt, hle⟩ := ih a
      have hbound : a.2 ≤ (pickFirstMax a t').2 := hle a (by simp)
      refine ⟨h :: l₁, l₂, ?_, ?_, ?_⟩
      · rw [hstep, List.cons_append, ← hsp]
      · intro q hq
        rw [hstep]
        rcases List.mem_cons.mp hq with rfl | hq'
        · exact lt_of_lt_of_le hha hbound
        · exact hlt q hq'
      · intro q hq
        rw [hstep]
        rcases List.mem_cons.mp hq with rfl | hq'
        · exact le_of_lt (lt_of_lt_of_le hha hbound)
        · exact hle q hq'
    · rw [if_neg hha] at hstep
      have hah : a.2 ≤ h.2 := le_of_not_lt hha
      obtain ⟨l₁, l₂, hsp, hlt, hle⟩ := ih h
      cases l₁ with
      | nil =>
        simp only [List.nil_append] at hsp
        have e1 : h = pickFirstMax h t' := (List.cons.injEq _ _ _ _).mp hsp |>.1
        refine ⟨[], a :: t', ?_, by simp, ?_⟩
        · rw [hstep, ← e1]
          simp
        · intro q hq
          rw [hstep, ← e1]
          rcases List.mem_cons.mp hq with rfl | hq'
          · exact le_refl _
          · rcases List.mem_cons.mp hq' with rfl | hq''
            · exact hah
            · have := hle q (List.mem_cons_of_mem _ hq'')
              rwa [← e1] at this
      | cons b l₁' =>
        have e1 : h = b := (List.cons.injEq _ _ _ _).mp hsp |>.1
        have e2 : t' = l₁' ++ pickFirstMax h t' :: l₂ := (List.cons.injEq _ _ _ _).mp hsp |>.2
        have hhlt : h.2 < (pickFirstMax h t').2 := by
          have := hlt b (by simp)
          rwa [← e1] at this
        refine ⟨h :: a :: l₁', l₂, ?_, ?_, ?_⟩
        · rw [hstep]
          simp only [List.cons_append]
          rw [← e2]
        · intro q hq
          rw [hstep]
          rcases List.mem_cons.mp hq with rfl | hq'
          · exact hhlt
          · rcases List.mem_cons.mp hq' with rfl | hq''
            · exact lt_of_le_of_lt hah hhlt
            · exact hlt q (by simp [← e1, hq''])
        · intro q hq
          rw [hstep]
          rcases List.mem_cons.mp hq with rfl | hq'
          · exact le_of_lt hhlt
          · rcases List.mem_cons.mp hq' with rfl | hq''
            · exact le_of_lt (lt_of_le_of_lt hah hhlt)
            · exact hle q (List.mem_cons_of_mem _ hq'')

/-- The candidate loop never collects more than `need` results once
`need ≥ 1`. -/
lemma searchLoop_length_le_need (chunks : List Dict) (pf cf : Option String)
    (cands : List (ℚ × ℤ)) :
    ∀ i need, 1 ≤ need → (searchLoop chunks pf cf cands i need).length ≤ need := by
  induction cands with
  | nil => intro i need _; simp [searchLoop]
  | cons hd rest ih =>
    intro i need hneed
    obtain ⟨d, idx⟩ := hd
    by_cases h1 : idx = -1
    · simp only [searchLoop, if_pos h1]
      exact ih (i + 1) need hneed
    · by_cases h2 : planAccept pf (chunks.getD idx.toNat []) = false
      · simp only [searchLoop, if_neg h1, if_pos h2]
        exact ih (i + 1) need hneed
      · by_cases h3 : catAccept cf (chunks.getD idx.toNat []) = false
        · simp only [searchLoop, if_neg h1, if_neg h2, if_pos h3]
          exact ih (i + 1) need hneed
        · by_cases h4 : need ≤ 1
          · simp only [searchLoop, if_neg h1, if_neg h2, if_neg h3, if_pos h4,
              List.length_singleton]
            exact hneed
          · have := ih (i + 1) (need - 1) (by omega)
            simp only [searchLoop, if_neg h1, if_neg h2, if_neg h3, if_neg h4,
              List.length_cons]
            omega

/-- The candidate loop returns at most one result per raw candidate. -/
lemma searchLoop_length_le_cands (chunks : List Dict) (pf cf : Option String)
    (cands : List (ℚ × ℤ)) :
    ∀ i need, (searchLoop chunks pf cf cands i need).length ≤ cands.length := by
  induction cands with
  | nil => intro i need; simp [searchLoop]
  | cons hd rest ih =>
    intro i need
    obtain ⟨d, idx⟩ := hd
    by_cases h1 : idx = -1
    · simp only [searchLoop, if_pos h1, List.length_cons]
      exact le_trans (ih (i + 1) need) (Nat.le_succ _)
    · by_cases h2 : planAccept pf (chunks.getD idx.toNat []) = false
      · simp only [searchLoop, if_neg h1, if_pos h2, List.length_cons]
        exact le_trans (ih (i + 1) need) (Nat.le_succ _)
      · by_cases h3 : catAccept cf (chunks.getD idx.toNat []) = false
        · simp only [searchLoop, if_neg h1, if_neg h2, if_pos h3, List.length_cons]
          exact le_trans (ih (i + 1) need) (Nat.le_succ _)
        · by_cases h4 : need ≤ 1
          · simp only [searchLoop, if_neg h1, if_neg h2, if_neg h3, if_pos h4,
              List.length_singleton, List.length_cons, List.length_nil]
            omega
          · simp only [searchLoop, if_neg h1, if_neg h2, if_neg h3, if_neg h4,
              List.length_cons]
            exact Nat.succ_le_succ (ih (i + 1) (need - 1))

/-- The distances recovered from the returned similarities form a sublist of
the raw candidate distances, in order. -/
lemma searchLoop_dist_sublist (chunks : List Dict) (pf cf : Option String)
    (cands : List (ℚ × ℤ)) :
    ∀ i need,
      List.Sublist
        ((searchLoop chunks pf cf cands i need).map (fun r => 1 - r.similarity_score))
        (cands.map Prod.fst) := by
  induction cands with
  | nil => intro i need; simp [searchLoop]
  | cons hd rest ih =>
    intro i need
    obtain ⟨d, idx⟩ := hd
    by_cases h1 : idx = -1
    · simp only [searchLoop, if_pos h1, List.map_cons]
      exact (ih (i + 1) need).cons d
    · by_cases h2 : planAccept pf (chunks.getD idx.toNat []) = false
      · simp only [searchLoop, if_neg h1, if_pos h2, List.map_cons]
        exact (ih (i + 1) need).cons d
      · by_cases h3 : catAccept cf (chunks.getD idx.toNat []) = false
        · simp only [searchLoop, if_neg h1, if_neg h2, if_pos h3, List.map_cons]
          exact (ih (i + 1) need).cons d
        · by_cases h4 : need ≤ 1
          · simp only [searchLoop, if_neg h1, if_neg h2, if_neg h3, if_pos h4,
              List.map_cons, List.map_nil, sub_sub_cancel]
            exact (List.nil_sublist _).cons₂ d
          · simp only [searchLoop, if_neg h1, if_neg h2, if_neg h3, if_neg h4,
              List.map_cons, sub_sub_cancel]
            exact (ih (i + 1) (need - 1)).cons₂ d

/-- Anatomy of a returned result: it comes from the raw candidate at position
`j` (0-based), carries `rank = i + j + 1` where `i` is the initial enumerate
counter, is not the `-1` sentinel, passed both filters, and its record is a
copy of the stored chunk at its id. -/
lemma searchLoop_mem (chunks : List Dict) (pf cf : Option String)
    (cands : List (ℚ × ℤ)) :
    ∀ i need r, r ∈ searchLoop chunks pf cf cands i need →
      ∃ j, cands[j]? = some (1 - r.similarity_score, r.chunk_id) ∧
        r.rank = i + j + 1 ∧ r.chunk_id ≠ -1 ∧
        planAccept pf r.chunk = true ∧ catAccept cf r.chunk = true ∧
        r.chunk = chunks.getD r.chunk_id.toNat [] := by
  induction cands with
  | nil => intro i need r hr; simp [searchLoop] at hr
  | cons hd rest ih =>
    intro i need r hr
    obtain ⟨d, idx⟩ := hd
    by_cases h1 : idx = -1
    · rw [searchLoop, if_pos h1] at hr
      obtain ⟨j, hj, hrank, hrest⟩ := ih (i + 1) need r hr
      exact ⟨j + 1, by simpa using hj, by omega, hrest⟩
    · by_cases h2 : planAccept pf (chunks.getD idx.toNat []) = false
      · rw [searchLoop, if_neg h1, if_pos h2] at hr
        obtain ⟨j, hj, hrank, hrest⟩ := ih (i + 1) need r hr
        exact ⟨j + 1, by simpa using hj, by omega, hrest⟩
      · by_cases h3 : catAccept cf (chunks.getD idx.toNat []) = false
        · rw [searchLoop, if_neg h1, if_neg h2, if_pos h3] at hr
          obtain ⟨j, hj, hrank, hrest⟩ := ih (i + 1) need r hr
          exact ⟨j + 1, by simpa using hj, by omega, hrest⟩
        · have haccept :
            ∀ hres : r = ⟨chunks.getD idx.toNat [], 1 - d, i + 1, idx⟩,
              ∃ j, ((d, idx) :: rest)[j]? = some (1 - r.similarity_score, r.chunk_id) ∧
                r.rank = i + j + 1 ∧ r.chunk_id ≠ -1 ∧
                planAccept pf r.chunk = true ∧ catAccept cf r.chunk = true ∧
                r.chunk = chunks.getD r.chunk_id.toNat [] := by
            intro hres
            subst hres
            refine ⟨0, by simp [sub_sub_cancel], by simp, h1, ?_, ?_, rfl⟩
            · simpa using h2
            · simpa using h3
          by_cases h4 : need ≤ 1
          · rw [searchLoop, if_neg h1, if_neg h2, if_neg h3, if_pos h4] at hr
            exact haccept (by simpa using hr)
          · rw [searchLoop, if_neg h1, if_neg h2, if_neg h3, if_neg h4] at hr
            rcases List.mem_cons.mp hr with hres | hr'
            · exact haccept hres
            · obtain ⟨j, hj, hrank, hrest⟩ := ih (i + 1) (need - 1) r hr'
              exact ⟨j + 1, by simpa using hj, by omega, hrest⟩

/-- With both filters inactive and no sentinel candidates, every candidate is
accepted in order, so the ranks are consecutive from `i + 1`. -/
lemma searchLoop_rank_range (chunks : List Dict) (cands : List (ℚ × ℤ)) :
    ∀ i need, (∀ c ∈ cands, c.2 ≠ -1) →
      (searchLoop chunks none none cands i need).map SearchResult.rank =
        List.range' (i + 1) (searchLoop chunks none none cands i need).length := by
  induction cands with
  | nil => intro i need _; simp [searchLoop]
  | cons hd rest ih =>
    intro i need hall
    obtain ⟨d, idx⟩ := hd
    have h1 : ¬ idx = -1 := hall (d, idx) (by simp)
    have h2 : ¬ planAccept none (chunks.getD idx.toNat []) = false := by
      simp [planAccept]
    have h3 : ¬ catAccept none (chunks.getD idx.toNat []) = false := by
      simp [catAccept]
    by_cases h4 : need ≤ 1
    · simp only [searchLoop, if_neg h1, if_neg h2, if_neg h3, if_pos h4,
        List.map_cons, List.map_nil, List.length_singleton]
      simp [List.range']
    · have hrec := ih (i + 1) (need - 1) (fun c hc => hall c (List.mem_cons_of_mem _ hc))
      simp only [searchLoop, if_neg h1, if_neg h2, if_neg h3, if_neg h4, List.map_cons,
        List.length_cons, hrec, List.range'_succ]

/-- The loop only looks at the filters through their acceptance tests. -/
lemma searchLoop_filters_congr (chunks : List Dict) {pf₁ pf₂ cf₁ cf₂ : Option String}
    (hp : ∀ c, planAccept pf₁ c = planAccept pf₂ c)
    (hc : ∀ c, catAccept cf₁ c = catAccept cf₂ c) (cands : List (ℚ × ℤ)) :
    ∀ i need,
      searchLoop chunks pf₁ cf₁ cands i need = searchLoop chunks pf₂ cf₂ cands i need := by
  induction cands with
  | nil => intro i need; simp [searchLoop]
  | cons hd rest ih =>
    intro i need
    obtain ⟨d, idx⟩ := hd
    by_cases h1 : idx = -1
    · simp only [searchLoop, if_pos h1]
      exact ih (i + 1) need
    · simp only [searchLoop, if_neg h1, hp, hc]
      by_cases h2 : planAccept pf₂ (chunks.getD idx.toNat []) = false
      · simp only [if_pos h2]
        exact ih (i + 1) need
      · simp only [if_neg h2]
        by_cases h3 : catAccept cf₂ (chunks.getD idx.toNat []) = false
        · simp only [if_pos h3]
          exact ih (i + 1) need
        · simp only [if_neg h3]
          by_cases h4 : need ≤ 1
          · simp [if_pos h4]
          · simp only [if_neg h4]
            rw [ih (i + 1) (need - 1)]

/-- A passed plan filter with a non-empty value pins the chunk's plan name. -/
lemma planAccept_eq {p : String} (hp : p ≠ "") {c : Dict}
    (h : planAccept (some p) c = true) : dictGet c "plan_name" = some (Val.str p) := by
  simpa [planAccept, hp] using h

/-- A passed category filter with a non-empty value pins the chunk's category. -/
lemma catAccept_eq {p : String} (hp : p ≠ "") {c : Dict}
    (h : catAccept (some p) c = true) : dictGet c "category" = some (Val.str p) := by
  simpa [catAccept, hp] using h

/-- Evaluation of the unfiltered concrete search. -/
lemma search_st1_unfiltered : search st1 1 none none = [rA] := by
  norm_num [search, st1, searchLoop, planAccept, catAccept, rA, dA, dB, List.getD]

/-- Evaluation of the concrete search filtered to plan "B". -/
lemma search_st1_planB : search st1 2 (some "B") none = [rB] := by
  norm_num [search, st1, searchLoop, planAccept, catAccept, rB, dA, dB, List.getD, dictGet]
  decide

/-! ## Claims -/

/-- C1, counterexample: with a plan filter that rejects the first raw
candidate, `search` returns exactly one result whose `rank` is 2, not the
1-based position 1 among accepted results that the claim asserts. -/
theorem C1_rank_cex :
    (search st1 5 (some "B") none).length = 1 ∧
    (search st1 5 (some "B") none).map SearchResult.rank ≠ [1] := by decide

/-- C1 (amended): each returned result's `rank` is the 1-based position of its
originating candidate among the raw ANN candidates (skipped candidates
included); when both filters are absent and no sentinel candidate occurs, the
ranks are exactly 1, 2, …, len(results). -/
theorem C1_rank_raw_position :
    (∀ (st : SearchState) (k : ℕ) (pf cf : Option String) (r : SearchResult),
        r ∈ search st k pf cf →
        ∃ j, (st.ann (min (k * 3) st.chunks.length))[j]? =
            some (1 - r.similarity_score, r.chunk_id) ∧ r.rank = j + 1) ∧
    (∀ (st : SearchState) (k : ℕ),
        (∀ c ∈ st.ann (min (k * 3) st.chunks.length), c.2 ≠ -1) →
        (search st k none none).map SearchResult.rank =
          List.range' 1 (search st k none none).length) := by
  constructor
  · intro st k pf cf r hr
    simp only [search] at hr
    obtain ⟨j, hj, hrank, -, -, -, -⟩ :=
      searchLoop_mem st.chunks pf cf (st.ann (min (k * 3) st.chunks.length)) 0 k r hr
    exact ⟨j, hj, by omega⟩
  · intro st k hall
    simp only [search]
    have := searchLoop_rank_range st.chunks (st.ann (min (k * 3) st.chunks.length)) 0 k hall
    simpa using this

/-- C1 witness: the amended theorem instantiated on a concrete state. -/
theorem C1_rank_witness :
    (∃ j, (st1.ann (min (1 * 3) st1.chunks.length))[j]? =
        some (1 - rA.similarity_score, rA.chunk_id) ∧ rA.rank = j + 1) ∧
    (search st1 2 none none).map SearchResult.rank =
      List.range' 1 (search st1 2 none none).length :=
  ⟨C1_rank_raw_position.1 st1 1 none none rA
      (by rw [search_st1_unfiltered]; exact List.mem_singleton_self rA),
   C1_rank_raw_position.2 st1 2 (by decide)⟩

/-- C2: the category mapping has 17 entries; classification lower-cases the
input and scores each category by its substring keyword hits; whenever some
category scores positively, the returned category is the first-defined one
attaining the maximum score (the positive-score list splits at the returned
entry, every earlier entry scores strictly less, and no entry scores more);
the gym/wellness example classifies as wellness. -/
theorem C2_classifier_first_max :
    categories.length = 17 ∧
    classify "Our members get GYM access and Wellness perks" = "wellness" ∧
    ∀ s : String,
      (posScores (pyLower s) = [] ∧ classify s = "general") ∨
      ∃ l₁ p l₂, posScores (pyLower s) = l₁ ++ p :: l₂ ∧
        classify s = p.1 ∧ 0 < p.2 ∧
        (∀ q ∈ l₁, q.2 < p.2) ∧ (∀ q ∈ posScores (pyLower s), q.2 ≤ p.2) := by
  refine ⟨by decide, by decide, ?_⟩
  intro s
  cases hps : posScores (pyLower s) with
  | nil =>
    left
    exact ⟨rfl, by simp [classify, classifyLowered, hps]⟩
  | cons h t =>
    right
    obtain ⟨l₁, l₂, hsp, hlt, hle⟩ := pickFirstMax_spec h t
    refine ⟨l₁, pickFirstMax h t, l₂, hsp, ?_, ?_, hlt, hle⟩
    · simp [classify, classifyLowered, hps]
    · refine posScores_pos (t := pyLower s) ?_
      rw [hps, hsp]
      exact List.mem_append_right _ (List.mem_cons_self _ _)

/-- C2 witness: the quantified clause instantiated at a concrete string. -/
theorem C2_classifier_witness :
    (posScores (pyLower "GYM Wellness") = [] ∧ classify "GYM Wellness" = "general") ∨
    ∃ l₁ p l₂, posScores (pyLower "GYM Wellness") = l₁ ++ p :: l₂ ∧
      classify "GYM Wellness" = p.1 ∧ 0 < p.2 ∧
      (∀ q ∈ l₁, q.2 < p.2) ∧ (∀ q ∈ posScores (pyLower "GYM Wellness"), q.2 ≤ p.2) :=
  C2_classifier_first_max.2.2 "GYM Wellness"

/-- C3: with the index answer well-formed (at most the requested candidate
count, distances ascending), every search returns at most `top_k` results,
with non-increasing similarity scores. -/
theorem C3_search_bounded_sorted (st : SearchState) (k : ℕ) (pf cf : Option String)
    (hlen : (st.ann (min (k * 3) st.chunks.length)).length ≤ min (k * 3) st.chunks.length)
    (hsorted : ((st.ann (min (k * 3) st.chunks.length)).map Prod.fst).Pairwise (· ≤ ·)) :
    (search st k pf cf).length ≤ k ∧
    ((search st k pf cf).map SearchResult.similarity_score).Pairwise (· ≥ ·) := by
  constructor
  · cases k with
    | zero =>
      have hnil : st.ann (min (0 * 3) st.chunks.length) = [] :=
        List.eq_nil_of_length_eq_zero (Nat.le_zero.mp (by simpa using hlen))
      simp only [search]
      rw [hnil]
      simp [searchLoop]
    | succ k' =>
      simp only [search]
      exact searchLoop_length_le_need st.chunks pf cf _ 0 (k' + 1) (by omega)
  · have hsub := searchLoop_dist_sublist st.chunks pf cf
      (st.ann (min (k * 3) st.chunks.length)) 0 k
    have hpw := hsorted.sublist hsub
    simp only [search]
    rw [List.pairwise_map] at hpw ⊢
    exact hpw.imp (fun hab => by linarith)

/-- C3 witness: the theorem applied to a concrete state and query. -/
theorem C3_search_witness :
    (search st1 1 none none).length ≤ 1 ∧
    ((search st1 1 none none).map SearchResult.similarity_score).Pairwise (· ≥ ·) :=
  C3_search_bounded_sorted st1 1 none none (by norm_num [st1])
    (by norm_num [st1, List.pairwise_cons])

/-- C4, counterexample: `plan_filter` supplied as the empty string filters
nothing — the call returns a chunk of plan "A", whose plan name is not the
supplied filter value. -/
theorem C4_filter_cex :
    (search st1 1 (some "") none).map (fun r => dictGet r.chunk "plan_name") =
      [some (Val.str "A")] ∧
    some (Val.str "A") ≠ some (Val.str "") := by decide

/-- C4 (amended): for every supplied non-empty `plan_filter` value `p`, every
returned result's chunk has plan name `p`; analogously for a supplied
non-empty `category_filter` value; and both constraints hold simultaneously
when both filters are supplied non-empty. -/
theorem C4_filter_nonempty (st : SearchState) (k : ℕ) (p q : String)
    (hp : p ≠ "") (hq : q ≠ "") :
    (∀ cf r, r ∈ search st k (some p) cf →
      dictGet r.chunk "plan_name" = some (Val.str p)) ∧
    (∀ pf r, r ∈ search st k pf (some q) →
      dictGet r.chunk "category" = some (Val.str q)) ∧
    (∀ r, r ∈ search st k (some p) (some q) →
      dictGet r.chunk "plan_name" = some (Val.str p) ∧
      dictGet r.chunk "category" = some (Val.str q)) := by
  refine ⟨?_, ?_, ?_⟩
  · intro cf r hr
    simp only [search] at hr
    obtain ⟨-, -, -, -, hpa, -, -⟩ :=
      searchLoop_mem st.chunks (some p) cf _ 0 k r hr
    exact planAccept_eq hp hpa
  · intro pf r hr
    simp only [search] at hr
    obtain ⟨-, -, -, -, -, hca, -⟩ :=
      searchLoop_mem st.chunks pf (some q) _ 0 k r hr
    exact catAccept_eq hq hca
  · intro r hr
    simp only [search] at hr
    obtain ⟨-, -, -, -, hpa, hca, -⟩ :=
      searchLoop_mem st.chunks (some p) (some q) _ 0 k r hr
    exact ⟨planAccept_eq hp hpa, catAccept_eq hq hca⟩

/-- C4 witness: the amended filter theorem applied to a concrete search. -/
theorem C4_filter_witness : dictGet rB.chunk "plan_name" = some (Val.str "B") :=
  (C4_filter_nonempty st1 2 "B" "dental" (by decide) (by decide)).1 none rB
    (by rw [search_st1_planB]; exact List.mem_singleton_self rB)

/-- C5, counterexample: interrupting `save_all` right after the index write
leaves the new index next to the previous chunks and embeddings; `load_all`
accepts this mixture, which is neither the previous unit nor the new one. -/
theorem C5_save_cex :
    load_all fsOld = .ok ([[1]], [dA], [[1]]) ∧
    load_all (saveFirst fsOld [[2]] [dA, dB] [[2], [3]] 1 2) = .ok ([[2]], [dA], [[1]]) ∧
    (([[2]], [dA], [[1]]) : IndexData × List Dict × List (List ℚ)) ≠ ([[1]], [dA], [[1]]) ∧
    (([[2]], [dA], [[1]]) : IndexData × List Dict × List (List ℚ)) ≠
      ([[2]], [dA, dB], [[2], [3]]) := by
  refine ⟨rfl, rfl, by decide, by decide⟩

/-- C5 (amended): `save_all` writes in place, sequentially (mkdir, index,
chunks, embeddings, metadata), with no temporary file or rename; a failure
right after the index write leaves the location loadable as the new index
combined with the previous chunks and embeddings. -/
theorem C5_save_partial (fs : FS) (index : IndexData) (chunks : List Dict)
    (embeddings : List (List ℚ)) (dim : ℕ) (c₀ : List Dict) (e₀ : List (List ℚ))
    (hc : fs.chunksFile = some c₀) (he : fs.embFile = some e₀) :
    load_all (saveFirst fs index chunks embeddings dim 2) = .ok (index, c₀, e₀) := by
  simp [saveFirst, load_all, hc, he]

/-- C5 witness: the partial-save theorem at a concrete location. -/
theorem C5_save_witness :
    load_all (saveFirst fsOld [[2]] [dA, dB] [[2], [3]] 1 2) = .ok ([[2]], [dA], [[1]]) :=
  C5_save_partial fsOld [[2]] [dA, dB] [[2], [3]] 1 [dA] [[1]] rfl rfl

/-- C6: loading immediately after persisting returns exactly the persisted
index, chunk list and embedding matrix (hence identical passage count and
vector shape), and the location then carries exactly the summary metadata
`save_all` computed for the persisted chunks. -/
theorem C6_round_trip (fs : FS) (index : IndexData) (chunks : List Dict)
    (embeddings : List (List ℚ)) (dim : ℕ) :
    load_all (save_all fs index chunks embeddings dim) = .ok (index, chunks, embeddings) ∧
    (save_all fs index chunks embeddings dim).metaFile = some (metaOf chunks dim) ∧
    (metaOf chunks dim).total_chunks = chunks.length := by
  refine ⟨?_, ?_, rfl⟩ <;> simp [save_all, saveFirst, load_all]

/-- C6 witness: the round trip on a concrete unit. -/
theorem C6_round_trip_witness :
    load_all (save_all fsNoDir [[2]] [dA] [[1]] 1) = .ok ([[2]], [dA], [[1]]) ∧
    (save_all fsNoDir [[2]] [dA] [[1]] 1).metaFile = some (metaOf [dA] 1) ∧
    (metaOf [dA] 1).total_chunks = [dA].length :=
  C6_round_trip fsNoDir [[2]] [dA] [[1]] 1

/-- C7, counterexample: a location with the index, chunks and embeddings files
but no metadata file does not contain a complete persisted unit, yet
`load_all` succeeds instead of failing with IndexNotFound. -/
theorem C7_load_cex :
    specCompleteUnit fsNM = false ∧ load_all fsNM = .ok ([[1]], [dA], [[1]]) :=
  ⟨rfl, rfl⟩

/-- C7 (amended): retriever construction over a non-existent directory fails
with IndexNotFound; `load_all` succeeds exactly when the three files it reads
(index, chunks, embeddings) are present — the metadata file is not consulted;
`get_plan_overview` returns an overview chunk of the requested plan or `none`
(an unset optional key is treated as absent, never an error); and a filter
matching no stored chunk yields the valid empty result list. -/
theorem C7_load_conditions :
    (∀ fs : FS, fs.dirExists = false → retrieverInit fs = .error .IndexNotFound) ∧
    (∀ fs : FS, loadOk fs =
      (fs.indexFile.isSome && fs.chunksFile.isSome && fs.embFile.isSome)) ∧
    (∀ (chunks : List Dict) (p : String) (c : Dict),
      get_plan_overview chunks p = some c →
      dictGet c "plan_name" = some (Val.str p) ∧
      dictGet c "type" = some (Val.str "overview")) ∧
    (∀ (st : SearchState) (k : ℕ) (cf : Option String) (p : String), p ≠ "" →
      (∀ c ∈ st.chunks, dictGet c "plan_name" ≠ some (Val.str p)) →
      search st k (some p) cf = []) := by
  refine ⟨?_, ?_, ?_, ?_⟩
  · intro fs h
    simp [retrieverInit, h]
  · intro fs
    rcases fs with ⟨dir, i, c, e, m⟩
    rcases i <;> rcases c <;> rcases e <;> simp [loadOk, load_all]
  · intro chunks p c hc
    simp only [get_plan_overview] at hc
    have := List.find?_some hc
    simp only [Bool.and_eq_true, decide_eq_true_eq] at this
    exact this
  · intro st k cf p hp hnone
    rw [List.eq_nil_iff_forall_not_mem]
    intro r hr
    simp only [search] at hr
    obtain ⟨-, -, -, -, hpa, -, hch⟩ :=
      searchLoop_mem st.chunks (some p) cf _ 0 k r hr
    have hplan := planAccept_eq hp hpa
    rcases ho : st.chunks[r.chunk_id.toNat]? with _ | ch
    · rw [hch, List.getD_eq_getElem?_getD, ho] at hplan
      simp [dictGet] at hplan
    · have hmem : ch ∈ st.chunks := List.getElem?_mem ho
      have hr' : r.chunk = ch := by
        rw [hch, List.getD_eq_getElem?_getD, ho]
        rfl
      rw [hr'] at hplan
      exact hnone ch hmem hplan

/-- C7 witness: the amended load/totality conditions at concrete locations. -/
theorem C7_load_witness :
    retrieverInit fsNoDir = .error .IndexNotFound ∧
    loadOk fsNM = (fsNM.indexFile.isSome && fsNM.chunksFile.isSome && fsNM.embFile.isSome) ∧
    (dictGet dOv "plan_name" = some (Val.str "A") ∧
      dictGet dOv "type" = some (Val.str "overview")) ∧
    search st1 1 (some "Z") none = [] :=
  ⟨C7_load_conditions.1 fsNoDir rfl,
   C7_load_conditions.2.1 fsNM,
   C7_load_conditions.2.2.1 [dOv] "A" dOv (by decide),
   C7_load_conditions.2.2.2 st1 1 none "Z" (by decide) (by decide)⟩

/-- C8: no returned result carries the sentinel index -1; the results never
outnumber the raw candidates (fewer than `top_k` survivors are returned as-is,
never padded and never an error); and the result depends on the ANN index only
through its answer at exactly `min(top_k * 3, N)` requested neighbours. -/
theorem C8_oversample_sentinel :
    (∀ (st : SearchState) (k : ℕ) (pf cf : Option String) (r : SearchResult),
        r ∈ search st k pf cf → r.chunk_id ≠ -1) ∧
    (∀ (st : SearchState) (k : ℕ) (pf cf : Option String),
        (search st k pf cf).length ≤ (st.ann (min (k * 3) st.chunks.length)).length) ∧
    (∀ (st₁ st₂ : SearchState) (k : ℕ) (pf cf : Option String),
        st₁.chunks = st₂.chunks →
        st₁.ann (min (k * 3) st₁.chunks.length) = st₂.ann (min (k * 3) st₂.chunks.length) →
        search st₁ k pf cf = search st₂ k pf cf) := by
  refine ⟨?_, ?_, ?_⟩
  · intro st k pf cf r hr
    simp only [search] at hr
    obtain ⟨-, -, -, hid, -, -, -⟩ :=
      searchLoop_mem st.chunks pf cf _ 0 k r hr
    exact hid
  · intro st k pf cf
    simp only [search]
    exact searchLoop_length_le_cands st.chunks pf cf _ 0 k
  · intro st₁ st₂ k pf cf hchunks hann
    simp only [search]
    rw [hann, hchunks]

/-- C8 witness: the three conjuncts at concrete states (the two states agree
on the index answer at the requested candidate count and nowhere else). -/
theorem C8_oversample_witness :
    rA.chunk_id ≠ -1 ∧
    (search st1 1 none none).length ≤ (st1.ann (min (1 * 3) st1.chunks.length)).length ∧
    search st1 1 none none = search st1b 1 none none :=
  ⟨C8_oversample_sentinel.1 st1 1 none none rA
      (by rw [search_st1_unfiltered]; exact List.mem_singleton_self rA),
   C8_oversample_sentinel.2.1 st1 1 none none,
   C8_oversample_sentinel.2.2 st1 st1b 1 none none rfl rfl⟩

/-- C9: in benefit-chunk and overview-chunk creation the plan metadata mapping
is merged last, so a metadata key named category (or text, or type) silently
replaces the computed value; the classifier's category reaches the chunk
exactly when the metadata has no category key. -/
theorem C9_metadata_merged_last :
    ∀ (service description : String) (metadata : Dict),
      ((∀ v, dictGet metadata "category" = some v →
          dictGet (create_benefit_chunk service description metadata) "category" = some v) ∧
       (dictGet metadata "category" = none →
          dictGet (create_benefit_chunk service description metadata) "category" =
            some (Val.str (classifyLowered (pyLower service ++ " " ++ pyLower description)))) ∧
       (∀ v, dictGet metadata "text" = some v →
          dictGet (create_benefit_chunk service description metadata) "text" = some v) ∧
       (∀ v, dictGet metadata "type" = some v →
          dictGet (create_benefit_chunk service description metadata) "type" = some v)) ∧
      ((∀ v, dictGet metadata "category" = some v →
          dictGet (create_overview metadata) "category" = some v) ∧
       (dictGet metadata "category" = none →
          dictGet (create_overview metadata) "category" = some (Val.str "general")) ∧
       (∀ v, dictGet metadata "text" = some v →
          dictGet (create_overview metadata) "text" = some v) ∧
       (∀ v, dictGet metadata "type" = some v →
          dictGet (create_overview metadata) "type" = some v)) := by
  intro service description metadata
  constructor
  · refine ⟨?_, ?_, ?_, ?_⟩
    · intro v hv
      simp only [create_benefit_chunk]
      rw [dictGet_append, hv]
      rfl
    · intro h
      simp only [create_benefit_chunk]
      rw [dictGet_append, h]
      rfl
    · intro v hv
      simp only [create_benefit_chunk]
      rw [dictGet_append, hv]
      rfl
    · intro v hv
      simp only [create_benefit_chunk]
      rw [dictGet_append, hv]
      rfl
  · refine ⟨?_, ?_, ?_, ?_⟩
    · intro v hv
      simp only [create_overview]
      rw [dictGet_append, hv]
      rfl
    · intro h
      simp only [create_overview]
      rw [dictGet_append, h]
      rfl
    · intro v hv
      simp only [create_overview]
      rw [dictGet_append, hv]
      rfl
    · intro v hv
      simp only [create_overview]
      rw [dictGet_append, hv]
      rfl

/-- C9 witness: with a metadata mapping carrying a category key, the created
chunks keep the metadata's value, not the computed one. -/
theorem C9_metadata_witness :
    dictGet (create_benefit_chunk "Gym Membership" "Covered in full" mdX) "category" =
      some (Val.str "X") ∧
    dictGet (create_overview mdX) "category" = some (Val.str "X") :=
  ⟨(C9_metadata_merged_last "Gym Membership" "Covered in full" mdX).1.1 (Val.str "X") rfl,
   (C9_metadata_merged_last "Gym Membership" "Covered in full" mdX).2.1 (Val.str "X") rfl⟩

/-- C10: supplying the empty string as a filter applies no filtering — the
call behaves identically to one with that filter absent, because the source
only applies a filter when its value is truthy. -/
theorem C10_empty_filter (st : SearchState) (k : ℕ) :
    (∀ cf, search st k (some "") cf = search st k none cf) ∧
    (∀ pf, search st k pf (some "") = search st k pf none) := by
  constructor
  · intro cf
    simp only [search]
    exact searchLoop_filters_congr st.chunks (fun c => by simp [planAccept])
      (fun c => rfl) _ 0 k
  · intro pf
    simp only [search]
    exact searchLoop_filters_congr st.chunks (fun c => rfl)
      (fun c => by simp [catAccept]) _ 0 k

/-- C10 witness: on a concrete state the empty-string filter call coincides
with the unfiltered call. -/
theorem C10_empty_filter_witness :
    search st1 1 (some "") none = search st1 1 none none :=
  (C10_empty_filter st1 1).1 none

end HBS
